import Mathlib

/-!
# Verification of the sp500-rotation signal engine

Shallow embedding of the core signal/trade derivation code of the
sp500-rotation dashboard:

* `_computeStreak`, `_computeTradeStates`, `_signalStage`
  (from `src/js/timeline.js`), and
* `computeTradeLogSync` (from `src/js/app.js`).

Conventions of the embedding:

* JS numbers are modelled as rationals (`ℚ`).
* A date-aligned JS array whose cells may be `null` is a
  `List (Option ℚ)`; reading it at an index is `getOpt`, which returns
  `none` out of bounds (in JS, `arr[i]` is `undefined` there and
  `undefined != null` is `false`, so out-of-bounds reads behave exactly
  like `null` cells in every guard of the source).
* The decimal constants of the source are written as exact fractions:
  `1.05 = 21/20`, `-0.08 = -2/25`.
-/

attribute [local semireducible] Rat.mul Rat.inv Rat.add Rat.sub

namespace Rotation

/-- Read a date-aligned JS array cell: `none` out of bounds, like JS
`undefined`/`null` under the `!= null` guards used by the source. -/
def getOpt {α : Type} (xs : List (Option α)) (i : ℕ) : Option α :=
  xs.getD i none

/-- The guard `s.c[i] != null && s.c[i] < 0` from `_computeStreak`
(`timeline.js:283`). -/
def negAt (c : List (Option ℚ)) (i : ℕ) : Bool :=
  match getOpt c i with
  | some v => decide (v < 0)
  | none => false

/-- `_computeStreak` (`timeline.js:278-287`): scan backward from `idx`
while `c[i] != null && c[i] < 0`, counting contiguous days. -/
def computeStreak (c : List (Option ℚ)) : ℕ → ℕ
  | 0 => if negAt c 0 then 1 else 0
  | i + 1 => if negAt c (i + 1) then computeStreak c i + 1 else 0

/-- `belowMA50` from `_computeTradeStates` (`timeline.js:247-248`):
`ma50 !== null && ma50 < 0`, where a missing cell reads as `null`. -/
def belowMA50 (m : List (Option ℚ)) (i : ℕ) : Bool :=
  match getOpt m i with
  | some v => decide (v < 0)
  | none => false

/-- The record `{inTrade: true, maxStreak}` stored by
`_computeTradeStates`. -/
structure TState where
  inTrade : Bool
  maxStreak : ℕ
deriving DecidableEq, Repr

/-- One iteration of the `_computeTradeStates` loop body
(`timeline.js:245-270`).  The machine register is the pair
`(inTrade, maxStreak)`; the result also carries the value written to
`states[i]`.  The source updates `maxStreak` with
`if (streak > maxStreak) maxStreak = streak`, i.e. `max maxStreak streak`. -/
def tsStep (c m : List (Option ℚ)) (st : Bool × ℕ) (i : ℕ) :
    (Bool × ℕ) × Option TState :=
  let streak := computeStreak c i
  let below := belowMA50 m i
  if st.1 then
    if below = false then
      ((false, 0), none)
    else
      ((true, max st.2 streak), some ⟨true, max st.2 streak⟩)
  else
    if 15 ≤ streak ∧ below = true then
      ((true, streak), some ⟨true, streak⟩)
    else
      ((false, st.2), none)

/-- The machine register of `_computeTradeStates` just before the loop
body runs at index `i` (initially `inTrade = false`, `maxStreak = 0`,
`timeline.js:242-243`). -/
def tsState (c m : List (Option ℚ)) : ℕ → Bool × ℕ
  | 0 => (false, 0)
  | i + 1 => (tsStep c m (tsState c m i) i).1

/-- The value `states[i]` written by `_computeTradeStates`. -/
def tradeState (c m : List (Option ℚ)) (i : ℕ) : Option TState :=
  (tsStep c m (tsState c m i) i).2

/-- `_computeTradeStates` (`timeline.js:236-274`) for one sector:
the `states` array, aligned with the `n = dates.length` indices. -/
def computeTradeStates (c m : List (Option ℚ)) (n : ℕ) : List (Option TState) :=
  (List.range n).map (tradeState c m)

/-- The non-null signal stages returned by `_signalStage`
(the source returns the strings `"actif"`, `"construction"`,
`"surveillance"`, or `null`). -/
inductive Stage where
  | surveillance : Stage
  | construction : Stage
  | actif : Stage
deriving DecidableEq, Repr

/-- The JS test `ts && ts.inTrade` on a stored trade state. -/
def stIn (o : Option TState) : Bool :=
  match o with
  | some ts => ts.inTrade
  | none => false

/-- `_signalStage` (`timeline.js:318-333`). -/
def signalStage (c m : List (Option ℚ)) (i : ℕ) : Option Stage :=
  if stIn (tradeState c m i) then some Stage.actif
  else if 15 ≤ computeStreak c i then
    (if belowMA50 m i then some Stage.actif else some Stage.construction)
  else if 10 ≤ computeStreak c i then some Stage.construction
  else if 3 ≤ computeStreak c i then some Stage.surveillance
  else none

/-! ## Trade log builder (`computeTradeLogSync`, `app.js:213-281`)

The per-stock scan: `S` is the sector's precomputed `states` array,
`C` the stock's `close` array, `M` the stock's `ma50` array.  The loop
runs for `i < min S.length M.length`
(`for (let i = 0; i < states.length && i < sd.ma50.length; i++)`). -/

/-- A trade-log entry.  The source's ticker/sector/date metadata fields
are plain lookups and are omitted; closed trades leave `ongoing`
undefined in JS, which reads as `false`. -/
structure Trade where
  signalIdx : ℕ
  entryIdx : ℕ
  exitIdx : Option ℕ
  entryPrice : ℚ
  exitPrice : Option ℚ
  ret : Option ℚ
  days : Option ℕ
  ongoing : Bool
deriving DecidableEq, Repr

/-- The mutable scan registers of `computeTradeLogSync`
(`inTrade`, `entryIdx`, `entryPrice`) plus the trades pushed so far. -/
structure ScanState where
  inTrade : Bool
  entryIdx : Option ℕ
  entryPrice : Option ℚ
  log : List Trade
deriving DecidableEq, Repr

/-- The JS test `states[i] && states[i].inTrade` on the sector states
array. -/
def stInAt (S : List (Option TState)) (i : ℕ) : Bool :=
  stIn (S.getD i none)

/-- The guard `sd.ma50[i] != null && sd.ma50[i] <= -0.08`
(`app.js:253`). -/
def maLow (M : List (Option ℚ)) (i : ℕ) : Bool :=
  match getOpt M i with
  | some v => decide (v ≤ -(2 / 25))
  | none => false

/-- The entry trigger of `app.js:250-253`:
`isIn && !wasIn && sd.ma50[i] != null && sd.ma50[i] <= -0.08`, where
`wasIn = i > 0 && states[i-1] && states[i-1].inTrade`. -/
def entrySignal (S : List (Option TState)) (M : List (Option ℚ)) (i : ℕ) : Bool :=
  stInAt S i && !(decide (0 < i) && stInAt S (i - 1)) && maLow M i

/-- One iteration of the `computeTradeLogSync` inner loop
(`app.js:230-262`).  While in a trade, the exit test is
`curPrice != null && entryPrice > 0 && curPrice >= entryPrice * 1.05`;
otherwise the entry trigger is evaluated and, when it fires, the entry
executes at the next day's close provided
`ei < sd.close.length && sd.close[ei] != null` (exactly when
`getOpt C (i+1)` is `some`). -/
def tlStep (S : List (Option TState)) (C M : List (Option ℚ))
    (s : ScanState) (i : ℕ) : ScanState :=
  if s.inTrade then
    match getOpt C i, s.entryIdx, s.entryPrice with
    | some cur, some e, some ep =>
      if 0 < ep ∧ ep * (21 / 20) ≤ cur then
        { inTrade := false, entryIdx := none, entryPrice := some ep,
          log := s.log ++ [{ signalIdx := e - 1, entryIdx := e,
                             exitIdx := some i, entryPrice := ep,
                             exitPrice := some cur,
                             ret := some (cur / ep - 1),
                             days := some (i - e), ongoing := false }] }
      else s
    | _, _, _ => s
  else
    if entrySignal S M i then
      match getOpt C (i + 1) with
      | some p =>
        { s with inTrade := true, entryIdx := some (i + 1),
                 entryPrice := some p }
      | none => s
    else s

/-- The scan state after the first `j` iterations of the
`computeTradeLogSync` inner loop. -/
def tlRun (S : List (Option TState)) (C M : List (Option ℚ)) :
    ℕ → ScanState
  | 0 => ⟨false, none, none, []⟩
  | j + 1 => tlStep S C M (tlRun S C M j) j

/-- The post-loop push of `computeTradeLogSync`
(`if (inTrade && entryIdx != null)`, `app.js:264-275`): the still-open
trade is appended with `ongoing := true` and null exit fields. -/
def tlFinish (s : ScanState) : List Trade :=
  match s.inTrade, s.entryIdx, s.entryPrice with
  | true, some e, some ep =>
    s.log ++ [{ signalIdx := e - 1, entryIdx := e, exitIdx := none,
                entryPrice := ep, exitPrice := none, ret := none,
                days := none, ongoing := true }]
  | _, _, _ => s.log

/-- `computeTradeLogSync` for one stock (`app.js:224-276`): run the
loop over `i < min S.length M.length`, then push the still-open trade
as `ongoing`. -/
def computeTradeLog (S : List (Option TState)) (C M : List (Option ℚ)) :
    List Trade :=
  tlFinish (tlRun S C M (min S.length M.length))

/-- The full exit test of `app.js:234` for an open trade with entry
price `ep`, at scan index `k`. -/
def exitCond (C : List (Option ℚ)) (ep : ℚ) (k : ℕ) : Prop :=
  0 < ep ∧ ∃ y, getOpt C k = some y ∧ ep * (21 / 20) ≤ y

instance (C : List (Option ℚ)) (ep : ℚ) (k : ℕ) :
    Decidable (exitCond C ep k) := by
  unfold exitCond
  cases h : getOpt C k with
  | none => exact isFalse (by rintro ⟨-, y, hy, -⟩; simp [h] at hy)
  | some y =>
    exact decidable_of_iff (0 < ep ∧ ep * (21 / 20) ≤ y)
      (by constructor
          · rintro ⟨h1, h2⟩; exact ⟨h1, y, rfl, h2⟩
          · rintro ⟨h1, z, hz, h2⟩
            cases hz
            exact ⟨h1, h2⟩)

/-! ## Streak lemmas -/

theorem computeStreak_zero (c : List (Option ℚ)) :
    computeStreak c 0 = if negAt c 0 = true then 1 else 0 := by
  rfl

theorem computeStreak_succ (c : List (Option ℚ)) (n : ℕ) :
    computeStreak c (n + 1) =
      if negAt c (n + 1) = true then computeStreak c n + 1 else 0 := by
  rfl

theorem negAt_false_iff (c : List (Option ℚ)) (i : ℕ) :
    negAt c i = false ↔
      (getOpt c i = none ∨ ∃ v, getOpt c i = some v ∧ 0 ≤ v) := by
  unfold negAt
  cases h : getOpt c i with
  | none => simp [h]
  | some v =>
    simp only [h, decide_eq_false_iff_not, not_lt]
    constructor
    · intro hv
      exact Or.inr ⟨v, rfl, hv⟩
    · rintro (hn | ⟨w, hw, hv⟩)
      · cases hn
      · cases hw
        exact hv

theorem computeStreak_le (c : List (Option ℚ)) (i : ℕ) :
    computeStreak c i ≤ i + 1 := by
  induction i with
  | zero =>
    unfold computeStreak
    split <;> omega
  | succ n ih =>
    unfold computeStreak
    split <;> omega

theorem computeStreak_window (c : List (Option ℚ)) (i : ℕ) :
    ∀ j, j ≤ i → i < j + computeStreak c i → negAt c j = true := by
  induction i with
  | zero =>
    intro j hj hlt
    have hj0 : j = 0 := Nat.le_zero.mp hj
    subst hj0
    by_cases h : negAt c 0 = true
    · exact h
    · rw [Bool.not_eq_true] at h
      unfold computeStreak at hlt
      rw [h] at hlt
      simp at hlt
  | succ n ih =>
    intro j hj hlt
    by_cases h : negAt c (n + 1) = true
    · rcases Nat.lt_or_ge j (n + 1) with hj2 | hj2
      · unfold computeStreak at hlt
        rw [h] at hlt
        simp only [if_true] at hlt
        exact ih j (by omega) (by omega)
      · have : j = n + 1 := by omega
        subst this
        exact h
    · rw [Bool.not_eq_true] at h
      unfold computeStreak at hlt
      rw [h] at hlt
      simp at hlt
      omega

theorem computeStreak_boundary (c : List (Option ℚ)) (i : ℕ) :
    computeStreak c i = i + 1 ∨
      negAt c (i - computeStreak c i) = false := by
  induction i with
  | zero =>
    by_cases h : negAt c 0 = true
    · left
      unfold computeStreak
      rw [h]
      rfl
    · right
      rw [Bool.not_eq_true] at h
      unfold computeStreak
      rw [h]
      simpa using h
  | succ n ih =>
    by_cases h : negAt c (n + 1) = true
    · have hs : computeStreak c (n + 1) = computeStreak c n + 1 := by
        rw [computeStreak_succ, h]
        simp
      rcases ih with h1 | h2
      · left
        omega
      · right
        rw [hs]
        have he : n + 1 - (computeStreak c n + 1) = n - computeStreak c n := by
          omega
        rw [he]
        exact h2
    · right
      rw [Bool.not_eq_true] at h
      have hs : computeStreak c (n + 1) = 0 := by
        rw [computeStreak_succ, h]
        simp
      rw [hs]
      simpa using h

/-- C6: for every sector and index, `streak(sector, index)` counts the
contiguous run of non-null strictly negative flow-indicator days ending
at `index`: every day in the window `(index - streak, index]` is
non-null negative, the day just before the window (when the window does
not reach day 0) is not, the streak is `0` exactly when
`flowIndicator[index]` is null or `>= 0`, and index `0` with a negative
value yields streak `1`. -/
theorem streak_counts_contiguous_negative_days
    (c : List (Option ℚ)) (i : ℕ) :
    computeStreak c i ≤ i + 1 ∧
    (∀ j, j ≤ i → i < j + computeStreak c i → negAt c j = true) ∧
    (computeStreak c i = i + 1 ∨
      negAt c (i - computeStreak c i) = false) ∧
    ((getOpt c i = none ∨ ∃ v, getOpt c i = some v ∧ 0 ≤ v) →
      computeStreak c i = 0) ∧
    ((∃ v, getOpt c 0 = some v ∧ v < 0) → computeStreak c 0 = 1) := by
  refine ⟨computeStreak_le c i, computeStreak_window c i,
    computeStreak_boundary c i, ?_, ?_⟩
  · intro h
    have hn : negAt c i = false := (negAt_false_iff c i).mpr h
    cases i with
    | zero =>
      unfold computeStreak
      rw [hn]
      simp
    | succ n =>
      unfold computeStreak
      rw [hn]
      simp
  · rintro ⟨v, hv, hneg⟩
    have hn : negAt c 0 = true := by
      unfold negAt
      rw [hv]
      simpa using hneg
    unfold computeStreak
    rw [hn]
    rfl

/-- Witness for `streak_counts_contiguous_negative_days`, discharging
its conditional conjuncts on a concrete series: value `[−1, 1, null,
−2, −3]` gives streak `2` at index `4`, streak `0` at index `2` (null)
and index `1` (non-negative), and streak `1` at index `0`. -/
theorem streak_counts_contiguous_negative_days_witness :
    computeStreak [some (-1 : ℚ), some 1, none, some (-2), some (-3)] 2 = 0 ∧
    computeStreak [some (-1 : ℚ), some 1, none, some (-2), some (-3)] 0 = 1 ∧
    computeStreak [some (-1 : ℚ), some 1, none, some (-2), some (-3)] 4 = 2 :=
  ⟨(streak_counts_contiguous_negative_days
      [some (-1 : ℚ), some 1, none, some (-2), some (-3)] 2).2.2.2.1
      (Or.inl (by decide)),
   (streak_counts_contiguous_negative_days
      [some (-1 : ℚ), some 1, none, some (-2), some (-3)] 0).2.2.2.2
      ⟨-1, by decide, by decide⟩,
   by decide⟩

/-! ## Trade-state machine lemmas -/

theorem tradeState_of_out (c m : List (Option ℚ)) (i : ℕ)
    (h : (tsState c m i).1 = false) :
    tradeState c m i =
      if 15 ≤ computeStreak c i ∧ belowMA50 m i = true
      then some ⟨true, computeStreak c i⟩ else none := by
  unfold tradeState tsStep
  rw [h]
  simp only [Bool.false_eq_true, if_false]
  split <;> rfl

theorem tradeState_of_in (c m : List (Option ℚ)) (i : ℕ)
    (h : (tsState c m i).1 = true) :
    tradeState c m i =
      if belowMA50 m i = false then none
      else some ⟨true, max (tsState c m i).2 (computeStreak c i)⟩ := by
  unfold tradeState tsStep
  rw [h]
  simp only [if_true]
  split <;> rfl

theorem tsState_succ (c m : List (Option ℚ)) (i : ℕ) :
    tsState c m (i + 1) = (tsStep c m (tsState c m i) i).1 := by
  rfl

theorem tsState_succ_of_some (c m : List (Option ℚ)) (i : ℕ) (s : TState)
    (h : tradeState c m i = some s) :
    tsState c m (i + 1) = (true, s.maxStreak) := by
  rw [tsState_succ]
  unfold tradeState at h
  unfold tsStep at h ⊢
  by_cases h1 : (tsState c m i).1 = true
  · rw [h1] at h ⊢
    simp only [if_true] at h ⊢
    by_cases h2 : belowMA50 m i = false
    · rw [if_pos h2] at h
      cases h
    · rw [if_neg h2] at h ⊢
      cases h
      rfl
  · rw [Bool.not_eq_true] at h1
    rw [h1] at h ⊢
    simp only [Bool.false_eq_true, if_false] at h ⊢
    by_cases h2 : 15 ≤ computeStreak c i ∧ belowMA50 m i = true
    · rw [if_pos h2] at h ⊢
      cases h
      rfl
    · rw [if_neg h2] at h
      cases h

theorem tsState_succ_of_none (c m : List (Option ℚ)) (i : ℕ)
    (h : tradeState c m i = none) :
    (tsState c m (i + 1)).1 = false := by
  rw [tsState_succ]
  unfold tradeState at h
  unfold tsStep at h ⊢
  by_cases h1 : (tsState c m i).1 = true
  · rw [h1] at h ⊢
    simp only [if_true] at h ⊢
    by_cases h2 : belowMA50 m i = false
    · rw [if_pos h2]
    · rw [if_neg h2] at h
      cases h
  · rw [Bool.not_eq_true] at h1
    rw [h1] at h ⊢
    simp only [Bool.false_eq_true, if_false] at h ⊢
    by_cases h2 : 15 ≤ computeStreak c i ∧ belowMA50 m i = true
    · rw [if_pos h2] at h
      cases h
    · rw [if_neg h2]

/-- C1: from state OUT at index `i` (the lenient variant: 15-day
threshold, no flow floor), the machine enters IN exactly when
`streak(i) >= 15` and the moving-average distance at `i` is non-null
and strictly negative; the state recorded at the entry index is
`{inTrade := true, maxStreak := streak(i)}`, and every other OUT index
records `null`. -/
theorem out_state_enters_iff_streak15_below_ma
    (c m : List (Option ℚ)) (i : ℕ)
    (h : (tsState c m i).1 = false) :
    (tradeState c m i = some ⟨true, computeStreak c i⟩ ↔
      (15 ≤ computeStreak c i ∧ belowMA50 m i = true)) ∧
    (¬(15 ≤ computeStreak c i ∧ belowMA50 m i = true) →
      tradeState c m i = none) := by
  rw [tradeState_of_out c m i h]
  constructor
  · constructor
    · intro he
      by_contra hc
      rw [if_neg hc] at he
      cases he
    · intro hc
      rw [if_pos hc]
  · intro hc
    rw [if_neg hc]

/-- Witness for `out_state_enters_iff_streak15_below_ma`: on 16 days of
flow `−1` with MA distance `−1/10`, the machine is OUT coming into
index 14, where streak reaches 15 and entry fires with
`maxStreak = 15`. -/
theorem out_state_enters_iff_streak15_below_ma_witness :
    (tsState (List.replicate 16 (some (-1 : ℚ)))
        (List.replicate 16 (some (-(1 / 10) : ℚ))) 14).1 = false ∧
    tradeState (List.replicate 16 (some (-1 : ℚ)))
        (List.replicate 16 (some (-(1 / 10) : ℚ))) 14 =
      some ⟨true, computeStreak (List.replicate 16 (some (-1 : ℚ))) 14⟩ :=
  ⟨by decide,
   ((out_state_enters_iff_streak15_below_ma
      (List.replicate 16 (some (-1 : ℚ)))
      (List.replicate 16 (some (-(1 / 10) : ℚ))) 14 (by decide)).1).mpr
      (by decide)⟩

/-- C2: while a trade is open, the stored `maxStreak` is updated to
`max(previous, streak(i))` each day, hence is non-decreasing across the
in-trade run; at the first index where the below-MA condition fails the
machine records `null` at that exit index itself and resets the
`maxStreak` register to `0`. -/
theorem in_trade_max_streak_monotone_and_exit_resets
    (c m : List (Option ℚ)) (i : ℕ) (s : TState)
    (h : tradeState c m i = some s) :
    s.maxStreak ≤ max s.maxStreak (computeStreak c (i + 1)) ∧
    (belowMA50 m (i + 1) = true →
      tradeState c m (i + 1) =
        some ⟨true, max s.maxStreak (computeStreak c (i + 1))⟩) ∧
    (belowMA50 m (i + 1) = false →
      tradeState c m (i + 1) = none ∧
      tsState c m (i + 2) = (false, 0)) := by
  have hst : tsState c m (i + 1) = (true, s.maxStreak) :=
    tsState_succ_of_some c m i s h
  refine ⟨Nat.le_max_left _ _, ?_, ?_⟩
  · intro hb
    rw [tradeState_of_in c m (i + 1) (by rw [hst])]
    rw [hb]
    simp only [Bool.true_eq_false, if_false]
    rw [hst]
  · intro hb
    constructor
    · rw [tradeState_of_in c m (i + 1) (by rw [hst])]
      rw [if_pos hb]
    · have : tsState c m (i + 2) = (tsStep c m (tsState c m (i + 1)) (i + 1)).1 :=
        rfl
      rw [this, hst]
      unfold tsStep
      simp only [if_true, hb, if_pos]

/-- Witness for `in_trade_max_streak_monotone_and_exit_resets`: after
entry at index 14 the next day is still below MA, so the state at 15 is
`{inTrade := true, maxStreak := max 15 (streak 15)}`. -/
theorem in_trade_max_streak_monotone_and_exit_resets_witness :
    tradeState (List.replicate 16 (some (-1 : ℚ)))
        (List.replicate 16 (some (-(1 / 10) : ℚ))) 15 =
      some ⟨true, max 15 (computeStreak (List.replicate 16 (some (-1 : ℚ))) 15)⟩ :=
  (in_trade_max_streak_monotone_and_exit_resets
      (List.replicate 16 (some (-1 : ℚ)))
      (List.replicate 16 (some (-(1 / 10) : ℚ))) 14 ⟨true, 15⟩
      (by decide)).2.1 (by decide)

/-- C8: an index where the `ma50` value is null is treated as
`belowMA = false`: an IN machine exits there (records `null` and resets
the `maxStreak` register to `0`), and an OUT machine cannot enter —
null never holds the previous state. -/
theorem null_ma_forces_below_false_and_exit
    (c m : List (Option ℚ)) (i : ℕ) (h : getOpt m i = none) :
    belowMA50 m i = false ∧
    ((tsState c m i).1 = true →
      tradeState c m i = none ∧ tsState c m (i + 1) = (false, 0)) ∧
    ((tsState c m i).1 = false → tradeState c m i = none) := by
  have hb : belowMA50 m i = false := by
    unfold belowMA50
    rw [h]
  refine ⟨hb, ?_, ?_⟩
  · intro hin
    constructor
    · rw [tradeState_of_in c m i hin, if_pos hb]
    · rw [tsState_succ]
      unfold tsStep
      rw [hin]
      simp only [if_true, hb, if_pos]
  · intro hout
    rw [tradeState_of_out c m i hout]
    rw [if_neg]
    rintro ⟨-, hbt⟩
    rw [hb] at hbt
    cases hbt

/-- Witness for `null_ma_forces_below_false_and_exit`: with 16 negative
flow days but `ma50` null at index 15, the machine (IN since index 14)
exits at 15: the state recorded there is `null` and the register resets
to `(false, 0)`. -/
theorem null_ma_forces_below_false_and_exit_witness :
    tradeState (List.replicate 16 (some (-1 : ℚ)))
        (List.replicate 15 (some (-(1 / 10) : ℚ)) ++ [none]) 15 = none ∧
    tsState (List.replicate 16 (some (-1 : ℚ)))
        (List.replicate 15 (some (-(1 / 10) : ℚ)) ++ [none]) 16 = (false, 0) :=
  (null_ma_forces_below_false_and_exit
      (List.replicate 16 (some (-1 : ℚ)))
      (List.replicate 15 (some (-(1 / 10) : ℚ)) ++ [none]) 15
      (by decide)).2.1 (by decide)

theorem tsState_in_max_ge_15 (c m : List (Option ℚ)) (i : ℕ) :
    (tsState c m i).1 = true → 15 ≤ (tsState c m i).2 := by
  induction i with
  | zero =>
    intro h
    cases h
  | succ n ih =>
    intro h
    rw [tsState_succ] at h ⊢
    unfold tsStep at h ⊢
    by_cases h1 : (tsState c m n).1 = true
    · rw [h1] at h ⊢
      simp only [if_true] at h ⊢
      by_cases h2 : belowMA50 m n = false
      · rw [if_pos h2] at h
        cases h
      · rw [if_neg h2] at h ⊢
        have := ih h1
        simp only
        omega
    · rw [Bool.not_eq_true] at h1
      rw [h1] at h ⊢
      simp only [Bool.false_eq_true, if_false] at h ⊢
      by_cases h2 : 15 ≤ computeStreak c n ∧ belowMA50 m n = true
      · rw [if_pos h2] at h ⊢
        exact h2.1
      · rw [if_neg h2] at h
        cases h

/-- C10: every non-null state produced by `computeTradeStates` carries
`maxStreak >= 15`: entry sets it to the entry-day streak (at least the
15-day threshold) and it never decreases while the trade stays open. -/
theorem in_trade_state_max_streak_ge_threshold
    (c m : List (Option ℚ)) (i : ℕ) (s : TState)
    (h : tradeState c m i = some s) : 15 ≤ s.maxStreak := by
  by_cases h1 : (tsState c m i).1 = true
  · rw [tradeState_of_in c m i h1] at h
    by_cases h2 : belowMA50 m i = false
    · rw [if_pos h2] at h
      cases h
    · rw [if_neg h2] at h
      cases h
      have := tsState_in_max_ge_15 c m i h1
      simp only
      omega
  · rw [Bool.not_eq_true] at h1
    rw [tradeState_of_out c m i h1] at h
    by_cases h2 : 15 ≤ computeStreak c i ∧ belowMA50 m i = true
    · rw [if_pos h2] at h
      cases h
      exact h2.1
    · rw [if_neg h2] at h
      cases h

/-- Witness for `in_trade_state_max_streak_ge_threshold` at the day
after entry of the concrete series (state `{inTrade, maxStreak = 16}`). -/
theorem in_trade_state_max_streak_ge_threshold_witness :
    tradeState (List.replicate 16 (some (-1 : ℚ)))
        (List.replicate 16 (some (-(1 / 10) : ℚ))) 15 = some ⟨true, 16⟩ ∧
    15 ≤ (16 : ℕ) :=
  ⟨by decide,
   in_trade_state_max_streak_ge_threshold
      (List.replicate 16 (some (-1 : ℚ)))
      (List.replicate 16 (some (-(1 / 10) : ℚ))) 15 ⟨true, 16⟩ (by decide)⟩

/-! ## Signal stage -/

/-- C7: `_signalStage` follows the first-match priority: in trade →
`actif`; else streak ≥ 15 with the below-MA condition → `actif`; else
streak ≥ 15 → `construction`; else streak ≥ 10 → `construction`; else
streak ≥ 3 → `surveillance`; else none.  In particular a streak of at
least 3 is never classified `none`. -/
theorem signal_stage_priority (c m : List (Option ℚ)) (i : ℕ) :
    (stIn (tradeState c m i) = true → signalStage c m i = some Stage.actif) ∧
    (stIn (tradeState c m i) = false → 15 ≤ computeStreak c i →
      belowMA50 m i = true → signalStage c m i = some Stage.actif) ∧
    (stIn (tradeState c m i) = false → 15 ≤ computeStreak c i →
      belowMA50 m i = false → signalStage c m i = some Stage.construction) ∧
    (stIn (tradeState c m i) = false → computeStreak c i < 15 →
      10 ≤ computeStreak c i → signalStage c m i = some Stage.construction) ∧
    (stIn (tradeState c m i) = false → computeStreak c i < 10 →
      3 ≤ computeStreak c i → signalStage c m i = some Stage.surveillance) ∧
    (stIn (tradeState c m i) = false → computeStreak c i < 3 →
      signalStage c m i = none) ∧
    (3 ≤ computeStreak c i → signalStage c m i ≠ none) := by
  unfold signalStage
  refine ⟨?_, ?_, ?_, ?_, ?_, ?_, ?_⟩
  · intro h
    rw [h]
    simp
  · intro h h15 hb
    rw [h, hb]
    simp [h15]
  · intro h h15 hb
    rw [h, hb]
    simp [h15]
  · intro h h15 h10
    rw [h]
    simp only [Bool.false_eq_true, if_false]
    rw [if_neg (by omega), if_pos h10]
  · intro h h10 h3
    rw [h]
    simp only [Bool.false_eq_true, if_false]
    rw [if_neg (by omega), if_neg (by omega), if_pos h3]
  · intro h h3
    rw [h]
    simp only [Bool.false_eq_true, if_false]
    rw [if_neg (by omega), if_neg (by omega), if_neg (by omega)]
  · intro h3
    by_cases h : stIn (tradeState c m i) = true
    · rw [h]
      simp
    · rw [Bool.not_eq_true] at h
      rw [h]
      simp only [Bool.false_eq_true, if_false]
      by_cases h15 : 15 ≤ computeStreak c i
      · rw [if_pos h15]
        by_cases hb : belowMA50 m i <;> simp [hb]
      · rw [if_neg h15]
        by_cases h10 : 10 ≤ computeStreak c i
        · rw [if_pos h10]
          simp
        · rw [if_neg h10, if_pos h3]
          simp

/-- Witness for `signal_stage_priority`: on a 5-day all-negative flow
series with no MA data the machine never enters, streak at index 4 is
5, and the stage is `surveillance`. -/
theorem signal_stage_priority_witness :
    signalStage (List.replicate 5 (some (-1 : ℚ))) [] 4 =
      some Stage.surveillance :=
  (signal_stage_priority (List.replicate 5 (some (-1 : ℚ))) [] 4).2.2.2.2.1
    (by decide) (by decide) (by decide)

/-! ## Trade-log scan lemmas -/

theorem entrySignal_iff (S : List (Option TState)) (M : List (Option ℚ))
    (i : ℕ) :
    entrySignal S M i = true ↔
      (stInAt S i = true ∧ (i = 0 ∨ stInAt S (i - 1) = false) ∧
        ∃ v, getOpt M i = some v ∧ v ≤ -(2 / 25)) := by
  have hmid : (!(decide (0 < i) && stInAt S (i - 1))) = true ↔
      (i = 0 ∨ stInAt S (i - 1) = false) := by
    constructor
    · intro h
      by_cases h0 : i = 0
      · exact Or.inl h0
      · right
        have hd : decide (0 < i) = true := by
          simpa using Nat.pos_of_ne_zero h0
        rw [hd] at h
        simpa using h
    · rintro (h0 | hf)
      · subst h0
        simp
      · simp [hf]
  unfold entrySignal
  rw [Bool.and_eq_true, Bool.and_eq_true, hmid]
  unfold maLow
  cases h : getOpt M i with
  | none =>
    simp [h]
  | some v =>
    simp only [h, decide_eq_true_eq]
    constructor
    · rintro ⟨⟨h1, h2⟩, h3⟩
      exact ⟨h1, h2, v, rfl, h3⟩
    · rintro ⟨h1, h2, w, hw, h3⟩
      cases hw
      exact ⟨⟨h1, h2⟩, h3⟩

theorem tlRun_succ (S : List (Option TState)) (C M : List (Option ℚ))
    (j : ℕ) : tlRun S C M (j + 1) = tlStep S C M (tlRun S C M j) j := by
  rfl

theorem tlStep_in_exit (S : List (Option TState)) (C M : List (Option ℚ))
    (s : ScanState) (i : ℕ) (cur : ℚ) (e : ℕ) (ep : ℚ)
    (hin : s.inTrade = true) (hC : getOpt C i = some cur)
    (he : s.entryIdx = some e) (hep : s.entryPrice = some ep)
    (hx : 0 < ep ∧ ep * (21 / 20) ≤ cur) :
    tlStep S C M s i =
      { inTrade := false, entryIdx := none, entryPrice := some ep,
        log := s.log ++ [{ signalIdx := e - 1, entryIdx := e,
                           exitIdx := some i, entryPrice := ep,
                           exitPrice := some cur,
                           ret := some (cur / ep - 1),
                           days := some (i - e), ongoing := false }] } := by
  unfold tlStep
  rw [hin, hC, he, hep]
  simp [hx]

theorem tlStep_in_null (S : List (Option TState)) (C M : List (Option ℚ))
    (s : ScanState) (i : ℕ)
    (hin : s.inTrade = true) (hC : getOpt C i = none) :
    tlStep S C M s i = s := by
  unfold tlStep
  rw [hin, hC]
  simp

theorem tlStep_in_hold (S : List (Option TState)) (C M : List (Option ℚ))
    (s : ScanState) (i : ℕ) (cur : ℚ) (e : ℕ) (ep : ℚ)
    (hin : s.inTrade = true) (hC : getOpt C i = some cur)
    (he : s.entryIdx = some e) (hep : s.entryPrice = some ep)
    (hx : ¬(0 < ep ∧ ep * (21 / 20) ≤ cur)) :
    tlStep S C M s i = s := by
  unfold tlStep
  rw [hin, hC, he, hep]
  simp [hx]

theorem tlStep_out_entry (S : List (Option TState)) (C M : List (Option ℚ))
    (s : ScanState) (i : ℕ) (p : ℚ)
    (hin : s.inTrade = false) (hsig : entrySignal S M i = true)
    (hC : getOpt C (i + 1) = some p) :
    tlStep S C M s i =
      { s with inTrade := true, entryIdx := some (i + 1),
               entryPrice := some p } := by
  unfold tlStep
  rw [hin, hsig, hC]
  simp

theorem tlStep_out_null (S : List (Option TState)) (C M : List (Option ℚ))
    (s : ScanState) (i : ℕ)
    (hin : s.inTrade = false) (hsig : entrySignal S M i = true)
    (hC : getOpt C (i + 1) = none) :
    tlStep S C M s i = s := by
  unfold tlStep
  rw [hin, hsig, hC]
  simp

theorem tlStep_out_skip (S : List (Option TState)) (C M : List (Option ℚ))
    (s : ScanState) (i : ℕ)
    (hin : s.inTrade = false) (hsig : entrySignal S M i = false) :
    tlStep S C M s i = s := by
  unfold tlStep
  rw [hin, hsig]
  simp

/-- The entry-condition facts carried by every logged trade: the entry
trigger fired at `signalIdx`, the entry executed at the next index, at
that index's (non-null) close. -/
def entryOk (S : List (Option TState)) (C M : List (Option ℚ))
    (t : Trade) : Prop :=
  entrySignal S M t.signalIdx = true ∧
  t.entryIdx = t.signalIdx + 1 ∧
  getOpt C t.entryIdx = some t.entryPrice

/-- The exit facts of a closed logged trade: positive entry price,
exit at the first in-scan index at or after entry whose close is
non-null and at least `entryPrice * 1.05`, with the derived fields. -/
def closedOk (C : List (Option ℚ)) (t : Trade) : Prop :=
  ∃ x y, t.exitIdx = some x ∧ getOpt C x = some y ∧
    0 < t.entryPrice ∧ t.entryPrice * (21 / 20) ≤ y ∧
    t.exitPrice = some y ∧ t.ret = some (y / t.entryPrice - 1) ∧
    t.days = some (x - t.entryIdx) ∧ t.ongoing = false ∧
    t.entryIdx ≤ x ∧
    ∀ k, t.entryIdx ≤ k → k < x → ¬ exitCond C t.entryPrice k

/-- The facts carried by the open trade of a running scan after `j`
iterations: entry index `e` with price `ep`, and no exit condition met
at any already-scanned index since entry. -/
def openOk (S : List (Option TState)) (C M : List (Option ℚ))
    (j e : ℕ) (ep : ℚ) : Prop :=
  1 ≤ e ∧ e ≤ j ∧ entrySignal S M (e - 1) = true ∧
  getOpt C e = some ep ∧
  ∀ k, e ≤ k → k < j → ¬ exitCond C ep k

/-- The loop invariant of the `computeTradeLogSync` per-stock scan. -/
def invAt (S : List (Option TState)) (C M : List (Option ℚ))
    (j : ℕ) : Prop :=
  (∀ t ∈ (tlRun S C M j).log,
      entryOk S C M t ∧ closedOk C t ∧ ∃ x, t.exitIdx = some x ∧ x < j) ∧
  List.Pairwise (fun a b => ∃ x, a.exitIdx = some x ∧ x < b.entryIdx)
    (tlRun S C M j).log ∧
  ((tlRun S C M j).inTrade = true →
    ∃ e ep, (tlRun S C M j).entryIdx = some e ∧
      (tlRun S C M j).entryPrice = some ep ∧ openOk S C M j e ep ∧
      ∀ t ∈ (tlRun S C M j).log, ∃ x, t.exitIdx = some x ∧ x < e)

theorem tlRun_invAt (S : List (Option TState)) (C M : List (Option ℚ)) :
    ∀ j, invAt S C M j := by
  intro j
  induction j with
  | zero =>
    refine ⟨?_, ?_, ?_⟩
    · intro t ht
      cases ht
    · exact List.Pairwise.nil
    · intro h
      cases h
  | succ n ih =>
    obtain ⟨ih1, ih2, ih3⟩ := ih
    rw [invAt, tlRun_succ]
    by_cases hin : (tlRun S C M n).inTrade = true
    · obtain ⟨e, ep, he, hep, hopen, hlog⟩ := ih3 hin
      obtain ⟨he1, hej, hesig, hCe, hnoexit⟩ := hopen
      cases hC : getOpt C n with
      | none =>
        rw [tlStep_in_null S C M _ n hin hC]
        refine ⟨?_, ih2, ?_⟩
        · intro t ht
          obtain ⟨ha, hb, x, hx1, hx2⟩ := ih1 t ht
          exact ⟨ha, hb, x, hx1, by omega⟩
        · intro _
          refine ⟨e, ep, he, hep, ⟨he1, by omega, hesig, hCe, ?_⟩, hlog⟩
          intro k hk1 hk2
          rcases Nat.lt_or_ge k n with hk | hk
          · exact hnoexit k hk1 hk
          · have hkn : k = n := by omega
            subst hkn
            rintro ⟨-, y, hy, -⟩
            rw [hC] at hy
            cases hy
      | some cur =>
        by_cases hx : 0 < ep ∧ ep * (21 / 20) ≤ cur
        · rw [tlStep_in_exit S C M _ n cur e ep hin hC he hep hx]
          refine ⟨?_, ?_, ?_⟩
          · intro t ht
            simp only [List.mem_append, List.mem_singleton] at ht
            rcases ht with ht | ht
            · obtain ⟨ha, hb, x, hx1, hx2⟩ := ih1 t ht
              exact ⟨ha, hb, x, hx1, by omega⟩
            · subst ht
              refine ⟨⟨hesig, by show e = e - 1 + 1; omega, hCe⟩, ?_, n, rfl,
                by omega⟩
              exact ⟨n, cur, rfl, hC, hx.1, hx.2, rfl, rfl, rfl, rfl, hej,
                fun k hk1 hk2 => hnoexit k hk1 hk2⟩
          · rw [List.pairwise_append]
            refine ⟨ih2, List.pairwise_singleton _ _, ?_⟩
            intro a ha b hb
            simp only [List.mem_singleton] at hb
            subst hb
            obtain ⟨x, hx1, hx2⟩ := hlog a ha
            exact ⟨x, hx1, hx2⟩
          · intro h
            cases h
        · rw [tlStep_in_hold S C M _ n cur e ep hin hC he hep hx]
          refine ⟨?_, ih2, ?_⟩
          · intro t ht
            obtain ⟨ha, hb, x, hx1, hx2⟩ := ih1 t ht
            exact ⟨ha, hb, x, hx1, by omega⟩
          · intro _
            refine ⟨e, ep, he, hep, ⟨he1, by omega, hesig, hCe, ?_⟩, hlog⟩
            intro k hk1 hk2
            rcases Nat.lt_or_ge k n with hk | hk
            · exact hnoexit k hk1 hk
            · have hkn : k = n := by omega
              subst hkn
              rintro ⟨hpos, y, hy, hge⟩
              rw [hC] at hy
              cases hy
              exact hx ⟨hpos, hge⟩
    · rw [Bool.not_eq_true] at hin
      by_cases hsig : entrySignal S M n = true
      · cases hC : getOpt C (n + 1) with
        | some p =>
          rw [tlStep_out_entry S C M _ n p hin hsig hC]
          refine ⟨?_, ih2, ?_⟩
          · intro t ht
            obtain ⟨ha, hb, x, hx1, hx2⟩ := ih1 t ht
            exact ⟨ha, hb, x, hx1, by omega⟩
          · intro _
            refine ⟨n + 1, p, rfl, rfl,
              ⟨by omega, le_refl _, by simpa using hsig, hC, ?_⟩, ?_⟩
            · intro k hk1 hk2
              exact absurd hk2 (by omega)
            · intro t ht
              obtain ⟨-, -, x, hx1, hx2⟩ := ih1 t ht
              exact ⟨x, hx1, by omega⟩
        | none =>
          rw [tlStep_out_null S C M _ n hin hsig hC]
          refine ⟨?_, ih2, ?_⟩
          · intro t ht
            obtain ⟨ha, hb, x, hx1, hx2⟩ := ih1 t ht
            exact ⟨ha, hb, x, hx1, by omega⟩
          · intro h
            rw [hin] at h
            cases h
      · rw [Bool.not_eq_true] at hsig
        rw [tlStep_out_skip S C M _ n hin hsig]
        refine ⟨?_, ih2, ?_⟩
        · intro t ht
          obtain ⟨ha, hb, x, hx1, hx2⟩ := ih1 t ht
          exact ⟨ha, hb, x, hx1, by omega⟩
        · intro h
          rw [hin] at h
          cases h

theorem tlFinish_of_in (s : ScanState) (e : ℕ) (ep : ℚ)
    (hin : s.inTrade = true) (he : s.entryIdx = some e)
    (hep : s.entryPrice = some ep) :
    tlFinish s = s.log ++
      [{ signalIdx := e - 1, entryIdx := e, exitIdx := none,
         entryPrice := ep, exitPrice := none, ret := none,
         days := none, ongoing := true }] := by
  unfold tlFinish
  rw [hin, he, hep]

theorem tlFinish_of_out (s : ScanState) (hin : s.inTrade = false) :
    tlFinish s = s.log := by
  obtain ⟨st, ei, epr, lg⟩ := s
  cases st with
  | false =>
    cases ei <;> cases epr <;> rfl
  | true => cases hin

/-- One combined specification of the completed per-stock trade log:
entry facts for every logged trade, exit facts split on whether the
trade closed, and the chronological-separation order of the log. -/
theorem computeTradeLog_spec (S : List (Option TState))
    (C M : List (Option ℚ)) :
    (∀ t ∈ computeTradeLog S C M,
        entryOk S C M t ∧
        (t.exitIdx = none →
          t.ongoing = true ∧ t.exitPrice = none ∧ t.ret = none ∧
          t.days = none ∧
          ∀ k, t.entryIdx ≤ k → k < min S.length M.length →
            ¬ exitCond C t.entryPrice k) ∧
        (∀ x, t.exitIdx = some x → closedOk C t)) ∧
    List.Pairwise (fun a b => ∃ x, a.exitIdx = some x ∧ x < b.entryIdx)
      (computeTradeLog S C M) := by
  obtain ⟨inv1, inv2, inv3⟩ := tlRun_invAt S C M (min S.length M.length)
  by_cases hin : (tlRun S C M (min S.length M.length)).inTrade = true
  · obtain ⟨e, ep, he, hep, ⟨he1, hej, hesig, hCe, hnoexit⟩, hlog⟩ :=
      inv3 hin
    unfold computeTradeLog
    rw [tlFinish_of_in _ e ep hin he hep]
    constructor
    · intro t ht
      rcases List.mem_append.mp ht with ht | ht
      · obtain ⟨hok, hcl, x, hx1, hx2⟩ := inv1 t ht
        refine ⟨hok, ?_, ?_⟩
        · intro hnone
          rw [hx1] at hnone
          cases hnone
        · intro x2 hx2
          exact hcl
      · rw [List.mem_singleton] at ht
        subst ht
        refine ⟨⟨hesig, by show e = e - 1 + 1; omega, hCe⟩, ?_, ?_⟩
        · intro _
          exact ⟨rfl, rfl, rfl, rfl, hnoexit⟩
        · intro x hx
          cases hx
    · rw [List.pairwise_append]
      refine ⟨inv2, List.pairwise_singleton _ _, ?_⟩
      intro a ha b hb
      rw [List.mem_singleton] at hb
      subst hb
      exact hlog a ha
  · rw [Bool.not_eq_true] at hin
    unfold computeTradeLog
    rw [tlFinish_of_out _ hin]
    constructor
    · intro t ht
      obtain ⟨hok, hcl, x, hx1, hx2⟩ := inv1 t ht
      refine ⟨hok, ?_, ?_⟩
      · intro hnone
        rw [hx1] at hnone
        cases hnone
      · intro x2 hx2
        exact hcl
    · exact inv2

/-! ## Sample data for witnesses and counterexamples -/

/-- A sector state array entering IN at index 1 and staying IN. -/
def sampleStates : List (Option TState) :=
  [none, some ⟨true, 15⟩, some ⟨true, 15⟩, some ⟨true, 15⟩,
   some ⟨true, 15⟩]

/-- A stock MA-distance series deep below the `-0.08` threshold. -/
def sampleMA : List (Option ℚ) :=
  List.replicate 5 (some (-(1 / 10)))

/-- Closes rising to the 5% take profit: entry at index 2 at 100, first
close at or above 105 is 106 at index 4. -/
def sampleCloseTP : List (Option ℚ) :=
  [some 100, some 100, some 100, some 104, some 106]

/-- The closed trade produced by the scan on `sampleStates`,
`sampleCloseTP`, `sampleMA`. -/
def sampleClosedTrade : Trade :=
  { signalIdx := 1, entryIdx := 2, exitIdx := some 4, entryPrice := 100,
    exitPrice := some 106, ret := some (3 / 50), days := some 2,
    ongoing := false }

/-- Closes with a zero price at the entry index. -/
def sampleCloseZero : List (Option ℚ) :=
  [some 100, some 100, some 0, some 100, some 100]

/-- A second sector state array (length 4) entering IN at index 1. -/
def negStates : List (Option TState) :=
  [none, some ⟨true, 15⟩, some ⟨true, 15⟩, some ⟨true, 15⟩]

/-- A second stock MA-distance series below the threshold. -/
def negMA : List (Option ℚ) :=
  List.replicate 4 (some (-(1 / 10)))

/-- Closes with a negative price at the entry index. -/
def negClose : List (Option ℚ) :=
  [some 50, some 50, some (-5), some 50]

/-! ## Claim theorems on the trade log -/

/-- C3: a trade is opened only when the sector state edge-transitions
into `inTrade` at the signal index (in trade there, and either index 0
or not in trade the day before) and the stock's own MA distance there
is non-null and at most `-0.08`; the entry executes at the next index
at that day's non-null close (when that close is out of range or null,
no trade is opened, so every logged trade records such a close). -/
theorem trade_opens_only_on_entry_edge_and_discount
    (S : List (Option TState)) (C M : List (Option ℚ)) (t : Trade)
    (ht : t ∈ computeTradeLog S C M) :
    stInAt S t.signalIdx = true ∧
    (t.signalIdx = 0 ∨ stInAt S (t.signalIdx - 1) = false) ∧
    (∃ v, getOpt M t.signalIdx = some v ∧ v ≤ -(2 / 25)) ∧
    t.entryIdx = t.signalIdx + 1 ∧
    getOpt C t.entryIdx = some t.entryPrice := by
  obtain ⟨hmem, -⟩ := computeTradeLog_spec S C M
  obtain ⟨⟨hsig, hidx, hprice⟩, -, -⟩ := hmem t ht
  obtain ⟨h1, h2, h3⟩ := (entrySignal_iff S M t.signalIdx).mp hsig
  exact ⟨h1, h2, h3, hidx, hprice⟩

/-- Witness for `trade_opens_only_on_entry_edge_and_discount` on the
concrete closed trade of the sample scan. -/
theorem trade_opens_only_on_entry_edge_and_discount_witness :
    stInAt sampleStates sampleClosedTrade.signalIdx = true ∧
    (sampleClosedTrade.signalIdx = 0 ∨
      stInAt sampleStates (sampleClosedTrade.signalIdx - 1) = false) ∧
    (∃ v, getOpt sampleMA sampleClosedTrade.signalIdx = some v ∧
      v ≤ -(2 / 25)) ∧
    sampleClosedTrade.entryIdx = sampleClosedTrade.signalIdx + 1 ∧
    getOpt sampleCloseTP sampleClosedTrade.entryIdx =
      some sampleClosedTrade.entryPrice :=
  trade_opens_only_on_entry_edge_and_discount sampleStates sampleCloseTP
    sampleMA sampleClosedTrade (by decide)

/-- Counterexample to C4 as stated: the exit lacks the implicit
`entryPrice > 0` guard of the source (`app.js:234`).  With a zero close
at the entry index, the scan opens a trade at price `0`; index 3 then
has a non-null close `100 ≥ 0 * 1.05`, yet the trade is never closed
and ends ongoing with `exitIdx = none`. -/
theorem take_profit_exit_counterexample :
    computeTradeLog sampleStates sampleCloseZero sampleMA =
      [{ signalIdx := 1, entryIdx := 2, exitIdx := none, entryPrice := 0,
         exitPrice := none, ret := none, days := none,
         ongoing := true }] ∧
    getOpt sampleCloseZero 3 = some 100 ∧
    (0 : ℚ) * (21 / 20) ≤ 100 := by
  refine ⟨by decide, by decide, by decide⟩

/-- C4 (amended): provided `entryPrice > 0`, an open trade closes at
the first subsequent in-scan index whose close is non-null and at least
`entryPrice * 1.05`, recording that close as `exitPrice`,
`ret = exitPrice/entryPrice - 1 >= 0.05` and `days` equal to the index
difference; a trade still open at the end of the scan is retained with
`ongoing = true` and null exit fields (a trade with
`entryPrice <= 0` is never closed by the scan). -/
theorem take_profit_exit_characterization
    (S : List (Option TState)) (C M : List (Option ℚ)) (t : Trade)
    (ht : t ∈ computeTradeLog S C M) :
    (∀ x, t.exitIdx = some x →
      0 < t.entryPrice ∧
      ∃ y, getOpt C x = some y ∧ t.entryPrice * (21 / 20) ≤ y ∧
        t.exitPrice = some y ∧ t.ret = some (y / t.entryPrice - 1) ∧
        (1 / 20 : ℚ) ≤ y / t.entryPrice - 1 ∧
        t.days = some (x - t.entryIdx) ∧ t.entryIdx < x ∧
        ∀ k, t.entryIdx ≤ k → k < x →
          ∀ z, getOpt C k = some z → z < t.entryPrice * (21 / 20)) ∧
    (t.exitIdx = none →
      t.ongoing = true ∧ t.exitPrice = none ∧ t.ret = none ∧
      t.days = none ∧
      (0 < t.entryPrice →
        ∀ k, t.entryIdx ≤ k → k < min S.length M.length →
          ∀ z, getOpt C k = some z → z < t.entryPrice * (21 / 20))) := by
  obtain ⟨hmem, -⟩ := computeTradeLog_spec S C M
  obtain ⟨⟨-, -, hprice⟩, hopen, hclosed⟩ := hmem t ht
  constructor
  · intro x hx
    obtain ⟨x2, y, hx2, hy, hpos, hge, hxp, hret, hdays, -, hex, hfirst⟩ :=
      hclosed x hx
    rw [hx] at hx2
    cases hx2
    have hratio : (21 / 20 : ℚ) ≤ y / t.entryPrice := by
      rw [le_div_iff₀ hpos]
      linarith [hge]
    have hxlt : t.entryIdx < x := by
      rcases Nat.lt_or_ge t.entryIdx x with hlt | hge2
      · exact hlt
      · have hxe : x = t.entryIdx := by omega
        subst hxe
        rw [hprice] at hy
        cases hy
        have hgt : t.entryPrice < t.entryPrice * (21 / 20) := by
          nlinarith
        exact absurd hge (by linarith)
    refine ⟨hpos, y, hy, hge, hxp, hret, by linarith, hdays, hxlt, ?_⟩
    intro k hk1 hk2 z hz
    by_contra hzc
    exact hfirst k hk1 hk2 ⟨hpos, z, hz, by linarith⟩
  · intro hnone
    obtain ⟨hong, hxp, hret, hdays, hnoexit⟩ := hopen hnone
    refine ⟨hong, hxp, hret, hdays, ?_⟩
    intro hpos k hk1 hk2 z hz
    by_contra hzc
    exact hnoexit k hk1 hk2 ⟨hpos, z, hz, by linarith⟩

/-- Witness for `take_profit_exit_characterization` on the sample
closed trade: entry 100 at index 2, exit at index 4 at 106, return
`3/50 >= 1/20`. -/
theorem take_profit_exit_characterization_witness :
    0 < sampleClosedTrade.entryPrice ∧
    ∃ y, getOpt sampleCloseTP 4 = some y ∧
      sampleClosedTrade.entryPrice * (21 / 20) ≤ y ∧
      sampleClosedTrade.exitPrice = some y ∧
      sampleClosedTrade.ret = some (y / sampleClosedTrade.entryPrice - 1) ∧
      (1 / 20 : ℚ) ≤ y / sampleClosedTrade.entryPrice - 1 ∧
      sampleClosedTrade.days = some (4 - sampleClosedTrade.entryIdx) ∧
      sampleClosedTrade.entryIdx < 4 ∧
      ∀ k, sampleClosedTrade.entryIdx ≤ k → k < 4 →
        ∀ z, getOpt sampleCloseTP k = some z →
          z < sampleClosedTrade.entryPrice * (21 / 20) :=
  (take_profit_exit_characterization sampleStates sampleCloseTP sampleMA
    sampleClosedTrade (by decide)).1 4 (by decide)

/-- The holding interval of a logged trade: `[entryIdx, exitIdx)`,
unbounded on the right while the trade is still open. -/
def inHolding (t : Trade) (k : ℕ) : Prop :=
  t.entryIdx ≤ k ∧ ∀ x, t.exitIdx = some x → k < x

/-- C5: for a single ticker the holding intervals `[entryIdx, exitIdx)`
of the logged trades are pairwise disjoint — a new entry never starts
while a previous trade of the same ticker is still open. -/
theorem trade_intervals_pairwise_disjoint
    (S : List (Option TState)) (C M : List (Option ℚ)) :
    List.Pairwise (fun a b => ∀ k, ¬(inHolding a k ∧ inHolding b k))
      (computeTradeLog S C M) := by
  obtain ⟨-, hpw⟩ := computeTradeLog_spec S C M
  refine hpw.imp ?_
  rintro a b ⟨x, hx1, hx2⟩ k ⟨⟨hka, hka2⟩, hkb, -⟩
  have := hka2 x hx1
  omega

/-- Counterexample to C9 as stated: the completed trade log can carry
an entry with non-positive entry price.  The entry guard
(`app.js:255`) only requires the next-day close to be non-null, so a
negative close `-5` opens a trade that the `entryPrice > 0` exit guard
then keeps open forever, and the final push records it in the log. -/
theorem trade_log_nonpositive_entry_price_counterexample :
    computeTradeLog negStates negClose negMA =
      [{ signalIdx := 1, entryIdx := 2, exitIdx := none,
         entryPrice := -5, exitPrice := none, ret := none, days := none,
         ongoing := true }] ∧
    ((-5 : ℚ) ≤ 0) := by
  refine ⟨by decide, by decide⟩

/-- C9 (amended): every closed entry of the completed trade log has a
strictly positive entry price (the take-profit guard requires
`entryPrice > 0` to close); only a still-ongoing entry can carry a
non-positive entry price. -/
theorem closed_trades_have_positive_entry_price
    (S : List (Option TState)) (C M : List (Option ℚ)) (t : Trade)
    (ht : t ∈ computeTradeLog S C M) (x : ℕ) (hx : t.exitIdx = some x) :
    0 < t.entryPrice := by
  obtain ⟨hmem, -⟩ := computeTradeLog_spec S C M
  obtain ⟨-, -, hclosed⟩ := hmem t ht
  obtain ⟨x2, y, -, -, hpos, -⟩ := hclosed x hx
  exact hpos

/-- Witness for `closed_trades_have_positive_entry_price` on the
sample closed trade (entry price 100). -/
theorem closed_trades_have_positive_entry_price_witness :
    0 < sampleClosedTrade.entryPrice :=
  closed_trades_have_positive_entry_price sampleStates sampleCloseTP
    sampleMA sampleClosedTrade (by decide) 4 (by decide)

end Rotation
